import Mathlib

/-!
Verification of the AnCapTruyenLamVideo frontend (Angular/TypeScript)
against its natural-language specification.

The TypeScript source is shallowly embedded: TypeScript `number` fields of
task records become `Int`, TypeScript strings become `String`, optional
fields become `Option`, and the reactive signal state of a component
becomes an explicit state record transformed by pure step functions.
-/

/-- The `TaskStatus` string union from `models/crawler.model.ts`:
`'pending' | 'crawling_chapters' | 'downloading_images' | 'processing_ai'
| 'completed' | 'failed' | 'cancelled'`. -/
inductive TaskStatus where
  | pending
  | crawling_chapters
  | downloading_images
  | processing_ai
  | completed
  | failed
  | cancelled
  deriving DecidableEq, Repr, Fintype

/-- The string value each `TaskStatus` member stands for in the TypeScript
union type. -/
def TaskStatus.asString : TaskStatus → String
  | .pending => "pending"
  | .crawling_chapters => "crawling_chapters"
  | .downloading_images => "downloading_images"
  | .processing_ai => "processing_ai"
  | .completed => "completed"
  | .failed => "failed"
  | .cancelled => "cancelled"

/-- The `CrawlerTask` interface from `models/crawler.model.ts`. Numeric
counters are embedded as `Int` (TypeScript `number`s used as integers). -/
structure CrawlerTask where
  _id : String
  manga_url : String
  manga_title : Option String
  status : TaskStatus
  total_chapters : Int
  chapters_crawled : Int
  images_downloaded : Int
  total_images : Int
  batches_processed : Int
  total_batches : Int
  output_files : List String
  error_message : Option String
  created_at : String
  updated_at : String
  completed_at : Option String
  deriving DecidableEq, Repr

/-- JavaScript `Math.round`: rounds half-way cases toward positive
infinity, i.e. `Math.round x = ⌊x + 1/2⌋`. -/
def jsRound (q : ℚ) : ℤ := ⌊q + 1/2⌋

/-- The computed signal `MangaCrawlerComponent.overallProgress` (manga-crawler.component.ts,
lines 47-59): `0` when no task is present, otherwise the rounded sum of a
chapter term and an AI-batch term, each worth up to 50 points, with both
denominators clamped to at least 1 by `Math.max`. -/
def overallProgress (task? : Option CrawlerTask) : ℤ :=
  match task? with
  | none => 0
  | some task =>
    let totalChapters : ℤ := max task.total_chapters 1
    let totalBatches : ℤ := max task.total_batches 1
    let chapterProgress : ℚ := ((task.chapters_crawled : ℚ) / (totalChapters : ℚ)) * 50
    let aiProgress : ℚ := ((task.batches_processed : ℚ) / (totalBatches : ℚ)) * 50
    jsRound (chapterProgress + aiProgress)

/-- The spec's wording of the progress blend, written independently of the
component: `(chapters_crawled / max(total_chapters, 1)) * 50 +
(batches_processed / max(total_batches, 1)) * 50`, rounded to the nearest
integer with Mathlib's `round` (half up). -/
def overallProgressSpec (task? : Option CrawlerTask) : ℤ :=
  match task? with
  | none => 0
  | some task =>
    round (((task.chapters_crawled : ℚ) / ((max task.total_chapters 1 : ℤ) : ℚ)) * 50
      + ((task.batches_processed : ℚ) / ((max task.total_batches 1 : ℤ) : ℚ)) * 50)

/-- Claim C1: The component's overall progress is exactly the two-term
weighted blend of the spec: each stage contributes at most 50 of 100
points, both denominators are floored at 1, the sum is rounded to the
nearest integer, and the no-task case yields 0. -/
theorem overallProgress_eq_spec (task? : Option CrawlerTask) :
    overallProgress task? = overallProgressSpec task? := by
  cases task? with
  | none => rfl
  | some task =>
    simp only [overallProgress, overallProgressSpec, jsRound, round_eq]

/-- A partial `CrawlerTask` snapshot carried in a progress event's `data`
field; spreading it over the current task (`{ ...task, ...event.data }`)
overwrites exactly the fields it carries. -/
structure TaskDelta where
  status : Option TaskStatus
  manga_title : Option (Option String)
  total_chapters : Option Int
  chapters_crawled : Option Int
  images_downloaded : Option Int
  total_images : Option Int
  batches_processed : Option Int
  total_batches : Option Int
  output_files : Option (List String)
  error_message : Option (Option String)
  updated_at : Option String
  completed_at : Option (Option String)
  deriving DecidableEq, Repr

/-- The `ProgressEvent` interface from `models/crawler.model.ts`. -/
structure ProgressEvent where
  task_id : String
  event_type : String
  message : String
  progress : Int
  data : Option TaskDelta
  deriving DecidableEq, Repr

/-- The JavaScript object spread `{ ...task, ...event.data }` from
`manga-crawler.component.ts` line 199. -/
def mergeTask (task : CrawlerTask) (d : TaskDelta) : CrawlerTask :=
  { task with
    status := d.status.getD task.status
    manga_title := d.manga_title.getD task.manga_title
    total_chapters := d.total_chapters.getD task.total_chapters
    chapters_crawled := d.chapters_crawled.getD task.chapters_crawled
    images_downloaded := d.images_downloaded.getD task.images_downloaded
    total_images := d.total_images.getD task.total_images
    batches_processed := d.batches_processed.getD task.batches_processed
    total_batches := d.total_batches.getD task.total_batches
    output_files := d.output_files.getD task.output_files
    error_message := d.error_message.getD task.error_message
    updated_at := d.updated_at.getD task.updated_at
    completed_at := d.completed_at.getD task.completed_at }

/-- The `eventTypes` array registered with `addEventListener` in
`SseService.getTaskEvents` (crawler.service.ts, lines 120-134). -/
def eventTypes : List String :=
  [ "task_started"
  , "chapters_found"
  , "chapter_crawled"
  , "image_downloaded"
  , "batch_processing"
  , "batch_completed"
  , "video_generating"
  , "video_progress"
  , "video_completed"
  , "task_completed"
  , "task_failed"
  , "progress_update"
  , "keepalive" ]

/-- A raw server-sent event as it reaches the `EventSource`: its SSE event
type and, when `JSON.parse` of its data succeeds, the parsed
`ProgressEvent` payload (`none` models a parse failure, which the handler
catches and ignores). -/
structure RawSseEvent where
  type : String
  payload : Option ProgressEvent
  deriving DecidableEq, Repr

/-- What the `Observable` hands its subscriber: an `observer.next` with a
parsed event, or `observer.complete`. -/
inductive SseSignal where
  | next (e : ProgressEvent)
  | complete
  deriving DecidableEq, Repr

/-- The event-delivery behaviour of `SseService.getTaskEvents`
(crawler.service.ts, lines 136-159) on a finite incoming raw-event
sequence: only types in `eventTypes` have listeners, `keepalive` is
ignored, a parse failure is swallowed, a delivered `task_completed` or
`task_failed` closes the `EventSource` (so nothing later is processed) and
completes the observer. -/
def sseProcess : List RawSseEvent → List SseSignal
  | [] => []
  | ev :: rest =>
    if eventTypes.contains ev.type then
      if ev.type = "keepalive" then sseProcess rest
      else
        match ev.payload with
        | none => sseProcess rest
        | some e =>
          if ev.type = "task_completed" ∨ ev.type = "task_failed" then
            [SseSignal.next e, SseSignal.complete]
          else SseSignal.next e :: sseProcess rest
    else sseProcess rest

/-- The events actually delivered to the subscriber (the `next` signals,
in order). -/
def delivered (signals : List SseSignal) : List ProgressEvent :=
  signals.filterMap (fun s =>
    match s with
    | SseSignal.next e => some e
    | SseSignal.complete => none)

/-- A toast pushed through PrimeNG's `MessageService.add`. -/
structure Toast where
  severity : String
  summary : String
  detail : String
  deriving DecidableEq, Repr

/-- The reactive state of `MangaCrawlerComponent`: the `mangaUrl`,
`isLoading`, `currentTask` and `progressEvents` signals, plus the toasts
emitted so far. -/
structure ComponentState where
  mangaUrl : String
  isLoading : Bool
  currentTask : Option CrawlerTask
  progressEvents : List ProgressEvent
  toasts : List Toast
  deriving DecidableEq, Repr

/-- Line 193: `this.progressEvents.update(events => [...events, event])`. -/
def appendEvent (st : ComponentState) (e : ProgressEvent) : ComponentState :=
  { st with progressEvents := st.progressEvents ++ [e] }

/-- Lines 196-201: when the event carries `data`, spread it over the
current task (a `null` current task stays `null`). -/
def applyData (st : ComponentState) (e : ProgressEvent) : ComponentState :=
  match e.data with
  | some d => { st with currentTask := st.currentTask.map (fun t => mergeTask t d) }
  | none => st

/-- Lines 203-220: on `task_completed` / `task_failed` force the task
status, clear `isLoading` and toast. -/
def applyTerminal (st : ComponentState) (e : ProgressEvent) : ComponentState :=
  if e.event_type = "task_completed" then
    { st with
      currentTask := st.currentTask.map (fun t => { t with status := TaskStatus.completed })
      isLoading := false
      toasts := st.toasts ++ [⟨"success", "Completed", e.message⟩] }
  else if e.event_type = "task_failed" then
    { st with
      currentTask := st.currentTask.map (fun t => { t with status := TaskStatus.failed })
      isLoading := false
      toasts := st.toasts ++ [⟨"error", "Failed", e.message⟩] }
  else st

/-- The `next` handler of `MangaCrawlerComponent.subscribeToTaskEvents`
(manga-crawler.component.ts, lines 190-221), as a pure state transformer
on one delivered event. -/
def handleNext (st : ComponentState) (e : ProgressEvent) : ComponentState :=
  applyTerminal (applyData (appendEvent st e) e) e

lemma appendEvent_progressEvents (st : ComponentState) (e : ProgressEvent) :
    (appendEvent st e).progressEvents = st.progressEvents ++ [e] := rfl

lemma applyData_progressEvents (st : ComponentState) (e : ProgressEvent) :
    (applyData st e).progressEvents = st.progressEvents := by
  unfold applyData
  cases e.data <;> rfl

lemma applyTerminal_progressEvents (st : ComponentState) (e : ProgressEvent) :
    (applyTerminal st e).progressEvents = st.progressEvents := by
  unfold applyTerminal
  by_cases h1 : e.event_type = "task_completed" <;>
    by_cases h2 : e.event_type = "task_failed" <;>
    simp [h1, h2]

lemma handleNext_progressEvents (st : ComponentState) (e : ProgressEvent) :
    (handleNext st e).progressEvents = st.progressEvents ++ [e] := by
  unfold handleNext
  rw [applyTerminal_progressEvents, applyData_progressEvents, appendEvent_progressEvents]

lemma foldl_handleNext_progressEvents (evs : List ProgressEvent) (st : ComponentState) :
    (evs.foldl handleNext st).progressEvents = st.progressEvents ++ evs := by
  induction evs generalizing st with
  | nil => simp
  | cons e rest ih =>
    rw [List.foldl_cons, ih, handleNext_progressEvents, List.append_assoc]
    rfl

/-- Claim C8: The subscriber's progress-event log is append-only and
order-preserving: feeding any sequence of delivered events through the
`next` handler leaves the log equal to the old log with exactly the
received events appended at its end in delivery order, so the old log
survives as a prefix. -/
theorem progressEvents_append_only (st : ComponentState) (evs : List ProgressEvent) :
    (evs.foldl handleNext st).progressEvents = st.progressEvents ++ evs ∧
    st.progressEvents <+: (evs.foldl handleNext st).progressEvents := by
  refine ⟨foldl_handleNext_progressEvents evs st, ?_⟩
  rw [foldl_handleNext_progressEvents]
  exact List.prefix_append _ _

lemma delivered_mem_source (stream : List RawSseEvent) :
    ∀ e ∈ delivered (sseProcess stream),
      ∃ ev ∈ stream, ev.payload = some e ∧ ev.type ≠ "keepalive" := by
  induction stream with
  | nil =>
    intro e he
    simp [sseProcess, delivered] at he
  | cons ev rest ih =>
    intro e he
    rw [sseProcess] at he
    by_cases hc : eventTypes.contains ev.type
    · rw [if_pos hc] at he
      by_cases hk : ev.type = "keepalive"
      · rw [if_pos hk] at he
        obtain ⟨ev', h1, h2, h3⟩ := ih e he
        exact ⟨ev', List.mem_cons_of_mem _ h1, h2, h3⟩
      · rw [if_neg hk] at he
        rcases hp : ev.payload with _ | e'
        · rw [hp] at he
          obtain ⟨ev', h1, h2, h3⟩ := ih e he
          exact ⟨ev', List.mem_cons_of_mem _ h1, h2, h3⟩
        · simp only [hp] at he
          by_cases ht : ev.type = "task_completed" ∨ ev.type = "task_failed"
          · rw [if_pos ht] at he
            simp only [delivered, List.filterMap] at he
            simp at he
            exact ⟨ev, List.mem_cons_self _ _, by rw [hp, he], hk⟩
          · rw [if_neg ht] at he
            simp only [delivered, List.filterMap_cons] at he
            rcases List.mem_cons.mp he with h | h
            · exact ⟨ev, List.mem_cons_self _ _, by rw [hp, h], hk⟩
            · obtain ⟨ev', h1, h2, h3⟩ := ih e h
              exact ⟨ev', List.mem_cons_of_mem _ h1, h2, h3⟩
    · rw [if_neg hc] at he
      obtain ⟨ev', h1, h2, h3⟩ := ih e he
      exact ⟨ev', List.mem_cons_of_mem _ h1, h2, h3⟩

/-- Claim C2: On any raw event stream whose parsed payloads carry the same
event type as their SSE envelope, no `keepalive` event is ever emitted to
the subscriber, and none is ever appended to the component's (initially
empty) progress-event log. -/
theorem keepalive_never_stored (stream : List RawSseEvent)
    (wf : ∀ ev ∈ stream, ∀ e, ev.payload = some e → e.event_type = ev.type) :
    (∀ e ∈ delivered (sseProcess stream), e.event_type ≠ "keepalive") ∧
    (∀ st : ComponentState, st.progressEvents = [] →
      ∀ e ∈ ((delivered (sseProcess stream)).foldl handleNext st).progressEvents,
        e.event_type ≠ "keepalive") := by
  have main : ∀ e ∈ delivered (sseProcess stream), e.event_type ≠ "keepalive" := by
    intro e he
    obtain ⟨ev, hmem, hpay, hne⟩ := delivered_mem_source stream e he
    rw [wf ev hmem e hpay]
    exact hne
  refine ⟨main, ?_⟩
  intro st hst e he
  rw [foldl_handleNext_progressEvents, hst, List.nil_append] at he
  exact main e he

/-- Witness for C2: on a concrete two-event stream containing a keepalive,
the one delivered event is not a keepalive. -/
theorem keepalive_never_stored_witness :
    (⟨"t1", "task_started", "go", 0, none⟩ : ProgressEvent).event_type ≠ "keepalive" :=
  (keepalive_never_stored
    [⟨"keepalive", some ⟨"t1", "keepalive", "ping", 0, none⟩⟩,
     ⟨"task_started", some ⟨"t1", "task_started", "go", 0, none⟩⟩]
    (by decide)).1
    ⟨"t1", "task_started", "go", 0, none⟩ (by decide)

lemma terminal_type_contains {t : String}
    (ht : t = "task_completed" ∨ t = "task_failed") :
    eventTypes.contains t = true ∧ t ≠ "keepalive" := by
  rcases ht with h | h <;> rw [h] <;> refine ⟨by decide, by decide⟩

lemma sseProcess_stops_at_terminal (pre post : List RawSseEvent) (ev : RawSseEvent)
    (ht : ev.type = "task_completed" ∨ ev.type = "task_failed")
    (e : ProgressEvent) (hp : ev.payload = some e) :
    sseProcess (pre ++ ev :: post) = sseProcess (pre ++ [ev]) := by
  obtain ⟨hc, hk⟩ := terminal_type_contains ht
  induction pre with
  | nil =>
    simp only [List.nil_append]
    rw [sseProcess, sseProcess, if_pos hc, if_pos hc, if_neg hk, if_neg hk]
    simp only [hp, if_pos ht]
  | cons p ps ih =>
    simp only [List.cons_append]
    rw [sseProcess, sseProcess]
    by_cases hc2 : eventTypes.contains p.type
    · rw [if_pos hc2, if_pos hc2]
      by_cases hk2 : p.type = "keepalive"
      · rw [if_pos hk2, if_pos hk2]; exact ih
      · rw [if_neg hk2, if_neg hk2]
        rcases hp2 : p.payload with _ | e2
        · simp only
          exact ih
        · simp only
          by_cases ht2 : p.type = "task_completed" ∨ p.type = "task_failed"
          · rw [if_pos ht2, if_pos ht2]
          · rw [if_neg ht2, if_neg ht2, ih]
    · rw [if_neg hc2, if_neg hc2]; exact ih

lemma complete_mem_sseProcess_terminal (pre : List RawSseEvent) (ev : RawSseEvent)
    (ht : ev.type = "task_completed" ∨ ev.type = "task_failed")
    (e : ProgressEvent) (hp : ev.payload = some e) :
    SseSignal.complete ∈ sseProcess (pre ++ [ev]) := by
  obtain ⟨hc, hk⟩ := terminal_type_contains ht
  induction pre with
  | nil =>
    simp only [List.nil_append]
    rw [sseProcess, if_pos hc, if_neg hk]
    simp only [hp, if_pos ht]
    exact List.mem_cons_of_mem _ (List.mem_singleton.mpr rfl)
  | cons p ps ih =>
    simp only [List.cons_append]
    rw [sseProcess]
    by_cases hc2 : eventTypes.contains p.type
    · rw [if_pos hc2]
      by_cases hk2 : p.type = "keepalive"
      · rw [if_pos hk2]; exact ih
      · rw [if_neg hk2]
        rcases hp2 : p.payload with _ | e2
        · simp only
          exact ih
        · simp only
          by_cases ht2 : p.type = "task_completed" ∨ p.type = "task_failed"
          · rw [if_pos ht2]
            exact List.mem_cons_of_mem _ (List.mem_singleton.mpr rfl)
          · rw [if_neg ht2]
            exact List.mem_cons_of_mem _ ih
    · rw [if_neg hc2]; exact ih

lemma complete_not_in_dropLast (stream : List RawSseEvent) :
    SseSignal.complete ∉ (sseProcess stream).dropLast := by
  induction stream with
  | nil => simp [sseProcess]
  | cons ev rest ih =>
    rw [sseProcess]
    by_cases hc : eventTypes.contains ev.type
    · rw [if_pos hc]
      by_cases hk : ev.type = "keepalive"
      · rw [if_pos hk]; exact ih
      · rw [if_neg hk]
        rcases hp : ev.payload with _ | e
        · simp only
          exact ih
        · simp only
          by_cases ht : ev.type = "task_completed" ∨ ev.type = "task_failed"
          · rw [if_pos ht]
            simp
          · rw [if_neg ht]
            cases h : sseProcess rest with
            | nil => simp
            | cons s ss =>
              rw [List.dropLast_cons₂]
              intro hmem
              rcases List.mem_cons.mp hmem with h1 | h1
              · exact SseSignal.noConfusion h1
              · rw [h] at ih
                exact ih h1
    · rw [if_neg hc]; exact ih

/-- Claim C3: A delivered `task_completed` or `task_failed` event terminates
the stream: the output on `pre ++ [terminal] ++ post` equals the output on
`pre ++ [terminal]` (everything after the terminal raw event is never
processed, the `EventSource` being closed), the observer is completed, and
the completion signal can only be the very last signal, so no event of any
type follows it. -/
theorem terminal_event_closes_stream (pre post : List RawSseEvent) (ev : RawSseEvent)
    (e : ProgressEvent)
    (ht : ev.type = "task_completed" ∨ ev.type = "task_failed")
    (hp : ev.payload = some e) :
    sseProcess (pre ++ ev :: post) = sseProcess (pre ++ [ev]) ∧
    SseSignal.complete ∈ sseProcess (pre ++ ev :: post) ∧
    (∀ stream : List RawSseEvent, SseSignal.complete ∉ (sseProcess stream).dropLast) := by
  refine ⟨sseProcess_stops_at_terminal pre post ev ht e hp, ?_, fun s => complete_not_in_dropLast s⟩
  rw [sseProcess_stops_at_terminal pre post ev ht e hp]
  exact complete_mem_sseProcess_terminal pre ev ht e hp

/-- Witness for C3: a concrete stream with one event before and one after
the terminal `task_completed`. -/
theorem terminal_event_closes_stream_witness :
    sseProcess
        [⟨"task_started", some ⟨"t1", "task_started", "go", 0, none⟩⟩,
         ⟨"task_completed", some ⟨"t1", "task_completed", "done", 100, none⟩⟩,
         ⟨"progress_update", some ⟨"t1", "progress_update", "late", 0, none⟩⟩] =
      sseProcess
        [⟨"task_started", some ⟨"t1", "task_started", "go", 0, none⟩⟩,
         ⟨"task_completed", some ⟨"t1", "task_completed", "done", 100, none⟩⟩] ∧
    SseSignal.complete ∈ sseProcess
        [⟨"task_started", some ⟨"t1", "task_started", "go", 0, none⟩⟩,
         ⟨"task_completed", some ⟨"t1", "task_completed", "done", 100, none⟩⟩,
         ⟨"progress_update", some ⟨"t1", "progress_update", "late", 0, none⟩⟩] :=
  ⟨(terminal_event_closes_stream
      [⟨"task_started", some ⟨"t1", "task_started", "go", 0, none⟩⟩]
      [⟨"progress_update", some ⟨"t1", "progress_update", "late", 0, none⟩⟩]
      ⟨"task_completed", some ⟨"t1", "task_completed", "done", 100, none⟩⟩
      ⟨"t1", "task_completed", "done", 100, none⟩
      (Or.inl rfl) rfl).1,
    (terminal_event_closes_stream
      [⟨"task_started", some ⟨"t1", "task_started", "go", 0, none⟩⟩]
      [⟨"progress_update", some ⟨"t1", "progress_update", "late", 0, none⟩⟩]
      ⟨"task_completed", some ⟨"t1", "task_completed", "done", 100, none⟩⟩
      ⟨"t1", "task_completed", "done", 100, none⟩
      (Or.inl rfl) rfl).2.1⟩

/-- Claim C6: The subscriber registers a listener for exactly the thirteen
bus event types, in the bus order, with no duplicates — no more and no
fewer. -/
theorem eventTypes_exactly_thirteen :
    eventTypes =
      [ "task_started", "chapters_found", "chapter_crawled", "image_downloaded"
      , "batch_processing", "batch_completed", "video_generating", "video_progress"
      , "video_completed", "task_completed", "task_failed", "progress_update"
      , "keepalive" ] ∧
    eventTypes.length = 13 ∧ eventTypes.Nodup :=
  ⟨rfl, rfl, by decide⟩

/-- Claim C7: The externally visible `TaskStatus` enum has exactly seven
distinct values — the five pipeline states plus the `failed` and
`cancelled` short-circuits — and none of them is one of the internal
sub-phases `synthesizing_audio`, `assembling_video`, `uploading`. -/
theorem taskStatus_enum_exactly_seven :
    Fintype.card TaskStatus = 7 ∧
    (∀ t : TaskStatus, t.asString ∈
      [ "pending", "crawling_chapters", "downloading_images", "processing_ai"
      , "completed", "failed", "cancelled" ]) ∧
    (∀ t : TaskStatus,
      t.asString ≠ "synthesizing_audio" ∧
      t.asString ≠ "assembling_video" ∧
      t.asString ≠ "uploading") ∧
    Function.Injective TaskStatus.asString := by
  refine ⟨by decide, by decide, by decide, ?_⟩
  intro a b h
  revert h
  revert a b
  decide

/-- Does `pat` occur as a contiguous run inside the list? (the recursion
behind JavaScript `String.prototype.includes`). -/
def containsSeq (pat : List Char) : List Char → Bool
  | [] => pat.isEmpty
  | c :: rest => pat.isPrefixOf (c :: rest) || containsSeq pat rest

/-- JavaScript `url.includes(pat)`: substring containment. -/
def jsIncludes (s pat : String) : Bool :=
  containsSeq pat.toList s.toList

/-- The synchronous outcome of one `startCrawl()` click: whether the
`createTask` HTTP request was issued, and the rejection toast when it was
not. -/
structure StartCrawlAttempt where
  requestIssued : Bool
  rejection : Option Toast
  deriving DecidableEq, Repr

/-- The synchronous validation part of `MangaCrawlerComponent.startCrawl`
(manga-crawler.component.ts, lines 99-125): trim the input; an empty URL
gets a warning toast and no request, a URL not containing `truyenqq` gets
an error toast and no request, otherwise the create-task request is
issued. -/
def startCrawl (mangaUrl : String) : StartCrawlAttempt :=
  let url := mangaUrl.trim
  if url = "" then
    ⟨false, some ⟨"warn", "Warning", "Please enter a manga URL"⟩⟩
  else if jsIncludes url "truyenqq" = false then
    ⟨false, some ⟨"error", "Error", "URL must be from truyenqqno.com"⟩⟩
  else
    ⟨true, none⟩

/-- Claim C4: Task creation is attempted exactly when the trimmed URL is
non-empty and matches the accepted source-domain pattern (containment of
`truyenqq`, the check behind the "URL must be from truyenqqno.com"
message); otherwise the click is rejected synchronously with a toast and
no create-task request is ever issued. -/
theorem startCrawl_validation (mangaUrl : String) :
    ((startCrawl mangaUrl).requestIssued = true ↔
      (mangaUrl.trim ≠ "" ∧ jsIncludes mangaUrl.trim "truyenqq" = true)) ∧
    (startCrawl mangaUrl).rejection.isSome = !(startCrawl mangaUrl).requestIssued := by
  unfold startCrawl
  by_cases h1 : mangaUrl.trim = ""
  · simp [h1]
  · by_cases h2 : jsIncludes mangaUrl.trim "truyenqq" = false
    · simp [h1, h2]
    · have h2' : jsIncludes mangaUrl.trim "truyenqq" = true := by
        cases h : jsIncludes mangaUrl.trim "truyenqq"
        · exact absurd h h2
        · rfl
      simp [h1, h2, h2']

lemma overallProgress_some (t : CrawlerTask) :
    overallProgress (some t) =
      jsRound (((t.chapters_crawled : ℚ) / ((max t.total_chapters 1 : ℤ) : ℚ)) * 50
        + ((t.batches_processed : ℚ) / ((max t.total_batches 1 : ℤ) : ℚ)) * 50) := rfl

/-- A concrete task snapshot: 1 of 1 chapters crawled, 0 of 1 batches. -/
def snapshotEarly : CrawlerTask :=
  ⟨"t1", "https://truyenqqno.com/x", none, TaskStatus.crawling_chapters,
    1, 1, 0, 0, 0, 1, [], none, "2025-01-01", "2025-01-01", none⟩

/-- The same run one snapshot later: the chapter total has grown to 2
while every progress counter (and the batch total) is unchanged, so all
counters and totals are non-decreasing between the two snapshots. -/
def snapshotLate : CrawlerTask :=
  ⟨"t1", "https://truyenqqno.com/x", none, TaskStatus.crawling_chapters,
    2, 1, 0, 0, 0, 1, [], none, "2025-01-01", "2025-01-02", none⟩

/-- Claim C5, counterexample: Non-decreasing counters *and* non-decreasing
totals do not make `overallProgress` non-decreasing: between
`snapshotEarly` and `snapshotLate` every counter and total is
non-decreasing, yet the computed progress falls from 50 to 25, because a
growing denominator shrinks an already-earned stage fraction. -/
theorem overallProgress_not_monotone :
    (snapshotEarly.chapters_crawled ≤ snapshotLate.chapters_crawled ∧
     snapshotEarly.batches_processed ≤ snapshotLate.batches_processed ∧
     snapshotEarly.total_chapters ≤ snapshotLate.total_chapters ∧
     snapshotEarly.total_batches ≤ snapshotLate.total_batches) ∧
    overallProgress (some snapshotEarly) = 50 ∧
    overallProgress (some snapshotLate) = 25 ∧
    overallProgress (some snapshotLate) < overallProgress (some snapshotEarly) := by
  have e1 : overallProgress (some snapshotEarly) = 50 := by
    rw [overallProgress_some]
    rw [show snapshotEarly.chapters_crawled = 1 from rfl,
      show snapshotEarly.total_chapters = 1 from rfl,
      show snapshotEarly.batches_processed = 0 from rfl,
      show snapshotEarly.total_batches = 1 from rfl, max_self]
    unfold jsRound
    rw [Int.floor_eq_iff]
    constructor <;> norm_num
  have e2 : overallProgress (some snapshotLate) = 25 := by
    rw [overallProgress_some]
    rw [show snapshotLate.chapters_crawled = 1 from rfl,
      show snapshotLate.total_chapters = 2 from rfl,
      show snapshotLate.batches_processed = 0 from rfl,
      show snapshotLate.total_batches = 1 from rfl,
      max_eq_left (by norm_num : (1:ℤ) ≤ 2), max_self]
    unfold jsRound
    rw [Int.floor_eq_iff]
    constructor <;> norm_num
  refine ⟨by decide, e1, e2, by rw [e1, e2]; norm_num⟩

lemma div_term_mono {a b d : ℤ} (hab : a ≤ b) (hd : (1:ℤ) ≤ d) :
    ((a:ℚ) / (d:ℚ)) * 50 ≤ ((b:ℚ) / (d:ℚ)) * 50 := by
  have hd' : (0:ℚ) < (d:ℚ) := by exact_mod_cast lt_of_lt_of_le Int.zero_lt_one hd
  have hab' : (a:ℚ) ≤ (b:ℚ) := by exact_mod_cast hab
  exact mul_le_mul_of_nonneg_right ((div_le_div_iff_of_pos_right hd').mpr hab') (by norm_num)

/-- Claim C5, amended: For snapshots of a run whose totals are already
fixed (equal between the two snapshots), non-decreasing progress counters
do give a non-decreasing overall progress percentage. -/
theorem overallProgress_monotone_of_totals_fixed (t1 t2 : CrawlerTask)
    (htc : t1.total_chapters = t2.total_chapters)
    (htb : t1.total_batches = t2.total_batches)
    (hc : t1.chapters_crawled ≤ t2.chapters_crawled)
    (hb : t1.batches_processed ≤ t2.batches_processed) :
    overallProgress (some t1) ≤ overallProgress (some t2) := by
  rw [overallProgress_some, overallProgress_some, htc, htb]
  unfold jsRound
  apply Int.floor_le_floor
  have h1 := div_term_mono hc (le_max_right t2.total_chapters 1)
  have h2 := div_term_mono hb (le_max_right t2.total_batches 1)
  linarith

/-- Witness for the amended C5 at two concrete snapshots with equal
totals. -/
theorem overallProgress_monotone_of_totals_fixed_witness :
    overallProgress (some snapshotLate) ≤
      overallProgress (some { snapshotLate with chapters_crawled := 2 }) :=
  overallProgress_monotone_of_totals_fixed snapshotLate
    { snapshotLate with chapters_crawled := 2 } rfl rfl (by decide) (by decide)

/-- The status union `'draft' | 'published' | 'archived'` from
`models/story.model.ts`. -/
inductive StoryStatus where
  | draft
  | published
  | archived
  deriving DecidableEq, Repr

/-- The `Story` interface from `models/story.model.ts`. -/
structure Story where
  _id : Option String
  title : String
  description : String
  author : String
  status : StoryStatus
  createdAt : Option String
  updatedAt : Option String
  deriving DecidableEq, Repr

/-- The `accept` callback of `StoriesComponent.deleteStory`
(stories.component.ts, lines 125-148): with no `_id` nothing happens; with
an `_id`, on a successful delete request the list is replaced by
`stories.filter(s => s._id !== story._id)`, and on a failed request only a
toast is emitted, leaving the list untouched. -/
def deleteStoryAccept (stories : List Story) (story : Story) (success : Bool) : List Story :=
  match story._id with
  | none => stories
  | some id =>
    if success then stories.filter (fun s => s._id != some id) else stories

lemma count_filter_of_pos {α : Type} [DecidableEq α] (p : α → Bool) (l : List α) (a : α)
    (h : p a = true) : (l.filter p).count a = l.count a := by
  induction l with
  | nil => rfl
  | cons b t ih =>
    by_cases hb : p b = true
    · rw [List.filter_cons_of_pos hb]
      by_cases hab : a = b
      · subst hab
        rw [List.count_cons_self, List.count_cons_self, ih]
      · rw [List.count_cons_of_ne hab, List.count_cons_of_ne hab, ih]
    · rw [List.filter_cons_of_neg (by simpa using hb)]
      by_cases hab : a = b
      · subst hab
        exact absurd h hb
      · rw [List.count_cons_of_ne hab, ih]

/-- Claim C9: After a successful deletion the stories list is the previous
list with exactly the entries carrying the deleted `_id` removed: the
result is a sublist of the old list (so the surviving entries keep their
relative order and nothing is added), no surviving entry carries the
deleted `_id`, every entry with a different `_id` survives with its exact
multiplicity, and a failed deletion leaves the list unchanged. -/
theorem deleteStory_removes_exactly (stories : List Story) (story : Story) (id : String)
    (hid : story._id = some id) :
    (deleteStoryAccept stories story true).Sublist stories ∧
    (∀ s ∈ deleteStoryAccept stories story true, s._id ≠ some id) ∧
    (∀ s : Story, s._id ≠ some id →
      (deleteStoryAccept stories story true).count s = stories.count s) ∧
    deleteStoryAccept stories story false = stories := by
  have htrue : deleteStoryAccept stories story true
      = stories.filter (fun s => s._id != some id) := by
    simp [deleteStoryAccept, hid]
  have hfalse : deleteStoryAccept stories story false = stories := by
    simp [deleteStoryAccept, hid]
  refine ⟨htrue ▸ List.filter_sublist _, ?_, ?_, hfalse⟩
  · intro s hs
    rw [htrue] at hs
    have := (List.mem_filter.mp hs).2
    simpa using this
  · intro s hns
    rw [htrue, count_filter_of_pos _ _ _ (by simpa using hns)]

/-- A concrete story with `_id` "a". -/
def storyA : Story := ⟨some "a", "Alpha", "first", "ann", StoryStatus.draft, none, none⟩

/-- A concrete story with `_id` "b". -/
def storyB : Story := ⟨some "b", "Beta", "second", "bob", StoryStatus.published, none, none⟩

/-- Witness for C9 on a concrete two-story list. -/
theorem deleteStory_removes_exactly_witness :
    (deleteStoryAccept [storyA, storyB] storyA true).Sublist [storyA, storyB] :=
  (deleteStory_removes_exactly [storyA, storyB] storyA "a" rfl).1

/-- JavaScript `String.prototype.split` with a single-character separator,
acting on the string's character list: one segment per separator-free run,
with an empty segment between, before, or after adjacent separators. -/
def jsSplit (sep : Char) : List Char → List (List Char)
  | [] => [[]]
  | c :: cs =>
    match jsSplit sep cs with
    | [] => [[]]
    | s :: ss => if c = sep then [] :: s :: ss else (c :: s) :: ss

/-- The method `MangaCrawlerComponent.getFileName` (manga-crawler.component.ts, lines
250-252): `path.split('/').pop() || path`. `pop()` on the never-empty
split array returns the final segment, and `|| path` falls back to the
whole path exactly when that segment is the empty string (falsy). -/
def getFileName (path : String) : String :=
  if ((jsSplit '/' path.toList).getLastD []).isEmpty then path
  else String.mk ((jsSplit '/' path.toList).getLastD [])

/-- The suffix of `path` after its last `'/'` (the whole path when it has
none): the spec-side reading of what `getFileName` should return before
the empty-segment fallback. -/
def afterLastSlash (path : String) : List Char :=
  path.toList.rtakeWhile (fun x => x != '/')

lemma takeWhile_append_all {α : Type} (p : α → Bool) (u v : List α)
    (h : ∀ x ∈ u, p x = true) :
    (u ++ v).takeWhile p = u ++ v.takeWhile p := by
  induction u with
  | nil => simp
  | cons a t ih =>
    rw [List.cons_append, List.takeWhile_cons_of_pos (h a (List.mem_cons_self a t)),
      ih (fun x hx => h x (List.mem_cons_of_mem a hx)), List.cons_append]

lemma takeWhile_append_stop {α : Type} (p : α → Bool) (u v : List α)
    (h : ∃ x ∈ u, p x = false) :
    (u ++ v).takeWhile p = u.takeWhile p := by
  induction u with
  | nil =>
    obtain ⟨x, hx, _⟩ := h
    exact absurd hx (List.not_mem_nil x)
  | cons a t ih =>
    by_cases ha : p a = true
    · rw [List.cons_append, List.takeWhile_cons_of_pos ha, List.takeWhile_cons_of_pos ha]
      obtain ⟨x, hx, hpx⟩ := h
      rcases List.mem_cons.mp hx with rfl | hx'
      · rw [ha] at hpx
        cases hpx
      · rw [ih ⟨x, hx', hpx⟩]
    · rw [List.cons_append, List.takeWhile_cons_of_neg ha, List.takeWhile_cons_of_neg ha]

lemma rtakeWhile_cons_of_stop {α : Type} (p : α → Bool) (c : α) (l : List α)
    (h : ∃ x ∈ l, p x = false) :
    (c :: l).rtakeWhile p = l.rtakeWhile p := by
  unfold List.rtakeWhile
  rw [List.reverse_cons, takeWhile_append_stop p l.reverse [c]
    (by obtain ⟨x, hx, hpx⟩ := h; exact ⟨x, List.mem_reverse.mpr hx, hpx⟩)]

lemma rtakeWhile_cons_of_neg {α : Type} (p : α → Bool) (c : α) (l : List α)
    (hc : p c = false) :
    (c :: l).rtakeWhile p = l.rtakeWhile p := by
  by_cases h : ∀ x ∈ l, p x = true
  · rw [List.rtakeWhile_eq_self_iff.mpr h]
    unfold List.rtakeWhile
    rw [List.reverse_cons, takeWhile_append_all p l.reverse [c]
      (fun x hx => h x (List.mem_reverse.mp hx)),
      List.takeWhile_cons_of_neg (by simp [hc]), List.append_nil, List.reverse_reverse]
  · push_neg at h
    obtain ⟨x, hx, hpx⟩ := h
    exact rtakeWhile_cons_of_stop p c l ⟨x, hx, by simpa using hpx⟩

lemma jsSplit_ne_nil (sep : Char) (l : List Char) : jsSplit sep l ≠ [] := by
  cases l with
  | nil => simp [jsSplit]
  | cons c cs =>
    rw [jsSplit]
    cases h : jsSplit sep cs with
    | nil => simp
    | cons s ss => by_cases hc : c = sep <;> simp [hc]

lemma jsSplit_no_sep (sep : Char) (l : List Char) (h : sep ∉ l) : jsSplit sep l = [l] := by
  induction l with
  | nil => rfl
  | cons c cs ih =>
    have hc : c ≠ sep := fun e => h (by rw [← e]; exact List.mem_cons_self c cs)
    have hcs : sep ∉ cs := fun m => h (List.mem_cons_of_mem c m)
    simp only [jsSplit, ih hcs]
    rw [if_neg hc]

lemma jsSplit_two_le (sep : Char) (l : List Char) (h : sep ∈ l) :
    2 ≤ (jsSplit sep l).length := by
  induction l with
  | nil => cases h
  | cons c cs ih =>
    cases hs : jsSplit sep cs with
    | nil => exact absurd hs (jsSplit_ne_nil sep cs)
    | cons s ss =>
      simp only [jsSplit, hs]
      by_cases hc : c = sep
      · rw [if_pos hc]
        simp only [List.length_cons]
        omega
      · rw [if_neg hc]
        have hmem : sep ∈ cs := by
          rcases List.mem_cons.mp h with h1 | h1
          · exact absurd h1.symm hc
          · exact h1
        have h2 := ih hmem
        rw [hs] at h2
        simpa using h2

lemma getLastD_irrel {α : Type} (ss : List α) (h : ss ≠ []) (d1 d2 : α) :
    ss.getLastD d1 = ss.getLastD d2 := by
  cases ss with
  | nil => exact absurd rfl h
  | cons a t => rw [List.getLastD_cons, List.getLastD_cons]

lemma jsSplit_getLastD (sep : Char) (l : List Char) :
    (jsSplit sep l).getLastD [] = l.rtakeWhile (fun x => x != sep) := by
  induction l with
  | nil => rfl
  | cons c cs ih =>
    cases hs : jsSplit sep cs with
    | nil => exact absurd hs (jsSplit_ne_nil sep cs)
    | cons s ss =>
      simp only [jsSplit, hs]
      by_cases hc : c = sep
      · rw [if_pos hc, List.getLastD_cons, ← hs, ih]
        subst hc
        rw [rtakeWhile_cons_of_neg _ _ _ (by simp)]
      · rw [if_neg hc]
        by_cases hss : ss = []
        · subst hss
          have hnm : sep ∉ cs := by
            intro hmem
            have h2 := jsSplit_two_le sep cs hmem
            rw [hs] at h2
            simp at h2
          have hseq : s = cs := by
            have h3 := jsSplit_no_sep sep cs hnm
            rw [hs] at h3
            simpa using h3
          subst hseq
          rw [List.getLastD_cons, List.getLastD_nil,
            List.rtakeWhile_eq_self_iff.mpr ?_]
          intro x hx
          rcases List.mem_cons.mp hx with rfl | hx'
          · simpa using hc
          · have hxs : x ≠ sep := fun e => hnm (by rw [← e]; exact hx')
            simpa using hxs
        · have hmem : sep ∈ cs := by
            by_contra hnm
            have h3 := jsSplit_no_sep sep cs hnm
            rw [hs] at h3
            simp only [List.cons.injEq] at h3
            exact hss h3.2
          rw [List.getLastD_cons, getLastD_irrel ss hss (c :: s) s,
            ← List.getLastD_cons ([] : List Char), ← hs, ih,
            rtakeWhile_cons_of_stop _ _ _ ⟨sep, hmem, by simp⟩]

/-- Claim C10: `getFileName` returns the substring after the last `'/'`;
when that final segment is empty (the path ends in `'/'`) it returns the
whole original path, and a path containing no `'/'` is returned
unchanged. -/
theorem getFileName_spec (path : String) :
    getFileName path =
      (if afterLastSlash path = [] then path else String.mk (afterLastSlash path)) ∧
    ('/' ∉ path.toList → getFileName path = path) := by
  have key : (jsSplit '/' path.toList).getLastD [] = afterLastSlash path :=
    jsSplit_getLastD '/' path.toList
  constructor
  · unfold getFileName
    rw [key]
    by_cases h : afterLastSlash path = []
    · rw [if_pos (by rw [h]; rfl), if_pos h]
    · rw [if_neg (by simpa [List.isEmpty_iff] using h), if_neg h]
  · intro hnm
    unfold getFileName
    rw [jsSplit_no_sep '/' path.toList hnm, List.getLastD_cons, List.getLastD_nil]
    split <;> rfl

/-- Witness for C10 on a concrete slash-free path. -/
theorem getFileName_spec_witness : getFileName "output.mp4" = "output.mp4" :=
  (getFileName_spec "output.mp4").2 (by decide)

/-- Witness for C1 at a concrete snapshot. -/
theorem overallProgress_eq_spec_witness :
    overallProgress (some snapshotEarly) = overallProgressSpec (some snapshotEarly) :=
  overallProgress_eq_spec (some snapshotEarly)

/-- Witness for C4 at a concrete accepted URL. -/
theorem startCrawl_validation_witness :
    (startCrawl "https://truyenqqno.com/truyen-tranh/abc").rejection.isSome
      = !(startCrawl "https://truyenqqno.com/truyen-tranh/abc").requestIssued :=
  (startCrawl_validation "https://truyenqqno.com/truyen-tranh/abc").2

/-- Witness for C8 at a concrete state and one delivered event. -/
theorem progressEvents_append_only_witness :
    (([⟨"t1", "task_started", "go", 0, none⟩] : List ProgressEvent).foldl handleNext
        ⟨"", true, none, [], []⟩).progressEvents
      = ([] : List ProgressEvent) ++ [⟨"t1", "task_started", "go", 0, none⟩] :=
  (progressEvents_append_only ⟨"", true, none, [], []⟩
    [⟨"t1", "task_started", "go", 0, none⟩]).1
